import Mathlib

/-!
Shallow embedding of `src/ftpforcer.py` (class `FTPBruteForcer`: combination
generation and the two search coordinators), with proofs about it.

Modelling conventions:

* A credential is a `(username, password)` pair of strings.
* The outcome of one FTP login round trip inside `try_credentials`
  (lines 25-32 of the source) is a value of `AttemptOutcome`: `ok` models a
  successful `ftp.login`, the remaining constructors model the exceptions the
  bare `except:` swallows (authentication rejection, socket timeout,
  connection error, and any other unexpected programming error).  The remote
  side is thus an arbitrary pure function
  `attempt : String → String → AttemptOutcome`.
* The shared mutable state `self.found` / `self.result` (lines 19-20) is the
  record `SearchState`, threaded explicitly through the loops.
* Thread-pool nondeterminism: `concurrent.futures.as_completed` yields the
  submitted futures in an arbitrary completion order.  The model takes a
  scheduler `sched : List Cred → List Cred`; theorems that need faithfulness
  assume `∀ l, (sched l).Perm l` (a completion order is a permutation of the
  submitted tasks).  The loops below process tasks sequentially in that
  order, which linearises the coordinator loop of the source.
* `ThreadPoolExecutor(max_workers=w)` with `w ≤ 0` raises `ValueError`
  (modelled as `PyError.valueErrorWorkers`); `range(0, total, 0)` raises
  `ValueError` (modelled as `PyError.valueErrorRange`).  A raised error
  carries the list of tasks whose completions the coordinator had already
  processed when the error was raised.
-/

abbrev Cred := String × String

/-- Result of one FTP login round trip, as observed inside `try_credentials`
before its `except:` handler runs. -/
inductive AttemptOutcome
  | ok
  | authRejected
  | timeout
  | connectionError
  | unexpectedError
  deriving DecidableEq, Repr

/-- The shared mutable search state `self.found` / `self.result`
(lines 19-20). -/
structure SearchState where
  found : Bool
  result : Option Cred
  deriving DecidableEq, Repr

/-- State set up by the constructor: `found = False`, `result = None`
(lines 19-20). -/
def SearchState.init : SearchState := ⟨false, none⟩

/-- Uncaught Python errors the coordinators can raise. -/
inductive PyError
  | valueErrorWorkers
  | valueErrorRange
  deriving DecidableEq, Repr

/-- Observables of one whole coordinator call: the returned value, the final
shared state, the tasks whose completions the coordinator processed (in
order), and the number of thread pools constructed. -/
structure RunResult where
  res : Option Cred
  state : SearchState
  tried : List Cred
  pools : Nat
  deriving DecidableEq, Repr

/-- Embedding of `try_credentials` (lines 22-32): returns the pair on a
successful login; returns `None` when `self.found` is already set, and on
any exception (authentication rejection, timeout, connection error,
anything else) because of the bare `except:`. -/
def try_credentials (attempt : String → String → AttemptOutcome)
    (st : SearchState) (u p : String) : Option Cred :=
  if st.found then none
  else
    match attempt u p with
    | .ok => some (u, p)
    | _ => none

/-- Embedding of `itertools.product(usernames, passwords)` (line 58):
username-major enumeration of every pair. -/
def listProduct : List String → List String → List Cred
  | [], _ => []
  | u :: us, ps => ps.map (fun p => (u, p)) ++ listProduct us ps

/-- Inner `for password in passwords` loop of `generate_combinations_cpu`
(lines 37-40): appends one pair at a time and returns from the whole
function (`Sum.inl`) as soon as the accumulated list has reached
`max_combinations` elements. -/
def genInner (maxCombs : Nat) (u : String) :
    List String → List Cred → List Cred ⊕ List Cred
  | [], acc => Sum.inr acc
  | p :: ps, acc =>
    let acc' := acc ++ [(u, p)]
    if maxCombs ≤ acc'.length then Sum.inl acc'
    else genInner maxCombs u ps acc'

/-- Outer `for username in usernames` loop of `generate_combinations_cpu`
(lines 36-41). -/
def genOuter (maxCombs : Nat) :
    List String → List String → List Cred → List Cred
  | [], _, acc => acc
  | u :: us, ps, acc =>
    match genInner maxCombs u ps acc with
    | Sum.inl out => out
    | Sum.inr acc' => genOuter maxCombs us ps acc'

/-- Embedding of `generate_combinations_cpu` (lines 34-41).  The Python
declares `max_combinations=1000000` as default; the model passes the cap
explicitly everywhere, writing `1000000` at call sites that use the
default. -/
def generate_combinations_cpu (usernames passwords : List String)
    (max_combinations : Nat) : List Cred :=
  genOuter max_combinations usernames passwords []

/-- One `as_completed` result-processing loop (lines 68-78 of
`brute_force_cpu`; lines 109-118 per batch of `brute_force_hybrid`),
linearised: tasks are processed one at a time in completion order.  Yields
the value the loop returns (the pair on the first processed success,
otherwise `none`), the final shared state, and the tasks processed. -/
def completionLoop (attempt : String → String → AttemptOutcome)
    (st : SearchState) : List Cred → Option Cred × SearchState × List Cred
  | [] => (none, st, [])
  | (u, p) :: ts =>
    if st.found then (none, st, [])
    else
      match try_credentials attempt st u p with
      | some c => (some c, ⟨true, some c⟩, [(u, p)])
      | none =>
        match completionLoop attempt st ts with
        | (r, st', tr) => (r, st', (u, p) :: tr)

/-- Embedding of `brute_force_cpu` (lines 55-84): builds the full cross
product (line 58), constructs one thread pool (line 62; `ValueError` when
`max_workers ≤ 0`, before anything is submitted), submits everything and
processes completions in scheduler order. -/
def brute_force_cpu (attempt : String → String → AttemptOutcome)
    (st : SearchState) (usernames passwords : List String)
    (max_workers : Int) (sched : List Cred → List Cred) :
    Except (PyError × List Cred) RunResult :=
  let combinations := listProduct usernames passwords
  if max_workers ≤ 0 then .error (.valueErrorWorkers, [])
  else
    match completionLoop attempt st (sched combinations) with
    | (r, st', tr) => .ok ⟨r, st', tr, 1⟩

/-- The batch slicing `combinations[i:i+batch_size]` for
`i in range(0, total, batch_size)` (lines 99-103), written with a fuel
argument equal to the list length (each step consumes at least one element
whenever `batch_size ≥ 1`, so that much fuel always suffices). -/
def sliceBatchesAux : Nat → Nat → List Cred → List (List Cred)
  | 0, _, _ => []
  | _ + 1, _, [] => []
  | fuel + 1, bs, l => l.take bs :: sliceBatchesAux fuel bs (l.drop bs)

/-- The list of batches of `brute_force_hybrid` in source order. -/
def sliceBatches (bs : Nat) (l : List Cred) : List (List Cred) :=
  sliceBatchesAux l.length bs l

/-- Outer batch loop of `brute_force_hybrid` (lines 99-122): per batch,
check `self.found` (line 100), construct a pool (line 105; `ValueError`
when `max_workers ≤ 0`), process the batch's completions, return on the
first processed success, otherwise continue with the next batch. -/
def hybridLoop (attempt : String → String → AttemptOutcome)
    (sched : List Cred → List Cred) (max_workers : Int)
    (st : SearchState) :
    List (List Cred) → Except (PyError × List Cred) RunResult
  | [] => .ok ⟨none, st, [], 0⟩
  | b :: rest =>
    if st.found then .ok ⟨none, st, [], 0⟩
    else if max_workers ≤ 0 then .error (.valueErrorWorkers, [])
    else
      match completionLoop attempt st (sched b) with
      | (some c, st', tr) => .ok ⟨some c, st', tr, 1⟩
      | (none, st', tr) =>
        match hybridLoop attempt sched max_workers st' rest with
        | .ok out => .ok ⟨out.res, out.state, tr ++ out.tried, out.pools + 1⟩
        | .error (e, tr') => .error (e, tr ++ tr')

/-- Embedding of `brute_force_hybrid` (lines 86-124) on the
GPU-unavailable path: the combinations come from
`generate_combinations_cpu` called with its default cap of `1000000`
(line 94), and are then processed one `batch_size` slice at a time.
`range(0, total, 0)` raises `ValueError` as soon as the loop header runs,
before any pool is constructed. -/
def brute_force_hybrid (attempt : String → String → AttemptOutcome)
    (st : SearchState) (usernames passwords : List String)
    (batch_size : Nat) (max_workers : Int)
    (sched : List Cred → List Cred) :
    Except (PyError × List Cred) RunResult :=
  let combinations := generate_combinations_cpu usernames passwords 1000000
  if batch_size = 0 then .error (.valueErrorRange, [])
  else hybridLoop attempt sched max_workers st (sliceBatches batch_size combinations)

/-- Credential a coordinator call hands back to its caller: the found pair
on success, `none` on exhaustion; a raised error produces no credential. -/
def searchResult : Except (PyError × List Cred) RunResult → Option Cred
  | .ok out => out.res
  | .error _ => none

/-- Number of thread pools a completed run constructed (`none` when the
run raised instead of completing). -/
def poolCount : Except (PyError × List Cred) RunResult → Option Nat
  | .ok out => some out.pools
  | .error _ => none

/-! ### Structural facts about the combination space -/

theorem length_listProduct (us ps : List String) :
    (listProduct us ps).length = us.length * ps.length := by
  induction us with
  | nil => simp [listProduct]
  | cons u us ih =>
    simp only [listProduct, List.length_append, List.length_map, ih,
      List.length_cons]
    ring

theorem mem_listProduct {c : Cred} {us ps : List String} :
    c ∈ listProduct us ps ↔ c.1 ∈ us ∧ c.2 ∈ ps := by
  induction us with
  | nil => simp [listProduct]
  | cons u us ih =>
    obtain ⟨a, b⟩ := c
    simp only [listProduct, List.mem_append, List.mem_map, ih,
      List.mem_cons, Prod.mk.injEq]
    constructor
    · rintro (⟨p, hp, hu, hpb⟩ | ⟨ha, hb⟩)
      · exact ⟨Or.inl hu.symm, hpb ▸ hp⟩
      · exact ⟨Or.inr ha, hb⟩
    · rintro ⟨ha | ha, hb⟩
      · exact Or.inl ⟨b, hb, ha.symm, rfl⟩
      · exact Or.inr ⟨ha, hb⟩

theorem listProduct_append (us₁ us₂ ps : List String) :
    listProduct (us₁ ++ us₂) ps = listProduct us₁ ps ++ listProduct us₂ ps := by
  induction us₁ with
  | nil => rfl
  | cons u us ih => simp [listProduct, ih]

theorem listProduct_replicate (n m : Nat) (a b : String) :
    listProduct (List.replicate n a) (List.replicate m b)
      = List.replicate (n * m) (a, b) := by
  induction n with
  | zero => simp [listProduct]
  | succ n ih =>
    rw [List.replicate_succ]
    simp only [listProduct, ih, List.map_replicate,
      List.append_replicate_replicate]
    congr 1
    ring

/-! ### The combination builder is the capped cross product -/

theorem genInner_eq (maxCombs : Nat) (u : String) (ps : List String)
    (acc : List Cred) (h : acc.length < maxCombs) :
    genInner maxCombs u ps acc =
      if maxCombs ≤ acc.length + ps.length
      then Sum.inl ((acc ++ ps.map (fun p => (u, p))).take maxCombs)
      else Sum.inr (acc ++ ps.map (fun p => (u, p))) := by
  induction ps generalizing acc with
  | nil =>
    simp only [genInner, List.map_nil, List.append_nil, List.length_nil,
      Nat.add_zero]
    rw [if_neg (Nat.not_le.mpr h)]
  | cons p ps ih =>
    rw [genInner]
    simp only [List.length_append, List.length_cons, List.length_nil,
      Nat.zero_add]
    by_cases hc : maxCombs ≤ acc.length + 1
    · have hm : maxCombs = acc.length + 1 := by omega
      rw [if_pos hc, if_pos (by omega)]
      have hlen : (acc ++ [(u, p)]).length = maxCombs := by
        simp [hm]
      rw [List.map_cons,
        show acc ++ (u, p) :: ps.map (fun p => (u, p))
            = (acc ++ [(u, p)]) ++ ps.map (fun p => (u, p)) by simp,
        List.take_append_of_le_length (le_of_eq hlen.symm),
        ← hlen, List.take_length]
    · rw [if_neg hc]
      have h' : (acc ++ [(u, p)]).length < maxCombs := by
        simp only [List.length_append, List.length_cons, List.length_nil,
          Nat.zero_add]
        omega
      rw [ih (acc ++ [(u, p)]) h']
      simp only [List.length_append, List.length_cons, List.length_nil,
        Nat.zero_add, List.append_assoc, List.singleton_append,
        List.map_cons]
      rw [show acc.length + 1 + ps.length = acc.length + (ps.length + 1) by
        omega]

theorem genOuter_eq (maxCombs : Nat) (us ps : List String) (acc : List Cred)
    (h : acc.length < maxCombs) :
    genOuter maxCombs us ps acc = (acc ++ listProduct us ps).take maxCombs := by
  induction us generalizing acc with
  | nil =>
    simp only [genOuter, listProduct, List.append_nil]
    exact (List.take_of_length_le (Nat.le_of_lt h)).symm
  | cons u us ih =>
    by_cases hc : maxCombs ≤ acc.length + ps.length
    · rw [genOuter, genInner_eq maxCombs u ps acc h, if_pos hc]
      show (acc ++ ps.map (fun p => (u, p))).take maxCombs
          = (acc ++ listProduct (u :: us) ps).take maxCombs
      have hrw : ((acc ++ ps.map (fun p => (u, p))) ++ listProduct us ps).take maxCombs
          = (acc ++ ps.map (fun p => (u, p))).take maxCombs :=
        List.take_append_of_le_length
          (by rw [List.length_append, List.length_map]; omega)
      rw [show listProduct (u :: us) ps
            = ps.map (fun p => (u, p)) ++ listProduct us ps from rfl,
        ← List.append_assoc, hrw]
    · rw [genOuter, genInner_eq maxCombs u ps acc h, if_neg hc]
      show genOuter maxCombs us ps (acc ++ ps.map (fun p => (u, p)))
          = (acc ++ listProduct (u :: us) ps).take maxCombs
      have h' : (acc ++ ps.map (fun p => (u, p))).length < maxCombs := by
        rw [List.length_append, List.length_map]; omega
      rw [ih _ h', List.append_assoc]
      rfl

/-- For every positive cap, `generate_combinations_cpu` returns exactly the
first `max_combinations` pairs of the username-major cross product. -/
theorem generate_eq_take (us ps : List String) (m : Nat) (hm : 1 ≤ m) :
    generate_combinations_cpu us ps m = (listProduct us ps).take m := by
  have h := genOuter_eq m us ps [] (by simpa using hm)
  simpa [generate_combinations_cpu] using h

/-! ### Batching covers the sliced list exactly -/

theorem flatten_sliceBatchesAux (fuel bs : Nat) (l : List Cred)
    (hbs : 1 ≤ bs) (hfuel : l.length ≤ fuel) :
    (sliceBatchesAux fuel bs l).flatten = l := by
  induction fuel generalizing l with
  | zero =>
    have hl : l = [] := List.eq_nil_of_length_eq_zero (Nat.le_zero.mp hfuel)
    subst hl
    rfl
  | succ fuel ih =>
    cases l with
    | nil => rfl
    | cons x xs =>
      rw [show sliceBatchesAux (fuel + 1) bs (x :: xs)
            = (x :: xs).take bs :: sliceBatchesAux fuel bs ((x :: xs).drop bs)
          from rfl,
        List.flatten_cons,
        ih ((x :: xs).drop bs) (by simp only [List.length_drop,
          List.length_cons] at hfuel ⊢; omega)]
      exact List.take_append_drop bs (x :: xs)

theorem flatten_sliceBatches (bs : Nat) (l : List Cred) (hbs : 1 ≤ bs) :
    (sliceBatches bs l).flatten = l :=
  flatten_sliceBatchesAux l.length bs l hbs (Nat.le_refl _)

theorem sliceBatches_ne_nil_shape (bs : Nat) (l : List Cred) (hl : l ≠ []) :
    sliceBatches bs l = l.take bs :: sliceBatchesAux (l.length - 1) bs (l.drop bs) := by
  cases l with
  | nil => exact absurd rfl hl
  | cons x xs => rfl

/-! ### Behaviour of one result-processing loop -/

theorem try_credentials_of_found (attempt : String → String → AttemptOutcome)
    (r : Option Cred) (u p : String) :
    try_credentials attempt ⟨true, r⟩ u p = none := rfl

theorem try_credentials_of_fault (attempt : String → String → AttemptOutcome)
    (st : SearchState) (u p : String) (hf : attempt u p ≠ .ok) :
    try_credentials attempt st u p = none := by
  cases h : attempt u p
  case ok => exact absurd h hf
  all_goals simp [try_credentials, h]

theorem try_credentials_some {attempt : String → String → AttemptOutcome}
    {st : SearchState} {u p : String} {c : Cred}
    (h : try_credentials attempt st u p = some c) :
    st.found = false ∧ attempt u p = .ok ∧ c = (u, p) := by
  unfold try_credentials at h
  by_cases hf : st.found = true
  · rw [if_pos hf] at h
    cases h
  · rw [if_neg hf] at h
    cases ha : attempt u p <;> rw [ha] at h
    · injection h with h'
      exact ⟨by simpa using hf, rfl, h'.symm⟩
    all_goals cases h

theorem completionLoop_found (attempt : String → String → AttemptOutcome)
    (st : SearchState) (tasks : List Cred) (hst : st.found = true) :
    completionLoop attempt st tasks = (none, st, []) := by
  cases tasks with
  | nil => rfl
  | cons t ts =>
    obtain ⟨u, p⟩ := t
    rw [completionLoop, if_pos hst]

theorem completionLoop_all_fail (attempt : String → String → AttemptOutcome)
    (st : SearchState) (tasks : List Cred) (hst : st.found = false)
    (hfail : ∀ t ∈ tasks, attempt t.1 t.2 ≠ .ok) :
    completionLoop attempt st tasks = (none, st, tasks) := by
  induction tasks with
  | nil => rfl
  | cons t ts ih =>
    obtain ⟨u, p⟩ := t
    have h1 : try_credentials attempt st u p = none :=
      try_credentials_of_fault attempt st u p
        (hfail (u, p) (List.mem_cons_self _ _))
    have h2 := ih (fun t ht => hfail t (List.mem_cons_of_mem _ ht))
    rw [completionLoop, if_neg (by simp [hst]), h1, h2]

theorem completionLoop_finds (attempt : String → String → AttemptOutcome)
    (st : SearchState) (tasks : List Cred) (c0 : Cred)
    (hst : st.found = false) (hmem : c0 ∈ tasks)
    (hok : attempt c0.1 c0.2 = .ok)
    (huniq : ∀ t ∈ tasks, attempt t.1 t.2 = .ok → t = c0) :
    ∃ tr, completionLoop attempt st tasks = (some c0, ⟨true, some c0⟩, tr) := by
  induction tasks with
  | nil => cases hmem
  | cons t ts ih =>
    obtain ⟨u, p⟩ := t
    by_cases h : attempt u p = .ok
    · have he : (u, p) = c0 := huniq (u, p) (List.mem_cons_self _ _) h
      refine ⟨[(u, p)], ?_⟩
      have htry : try_credentials attempt st u p = some (u, p) := by
        simp [try_credentials, hst, h]
      rw [completionLoop, if_neg (by simp [hst]), htry, he]
    · have hm : c0 ∈ ts := by
        rcases List.mem_cons.mp hmem with h' | h'
        · subst h'
          exact absurd hok h
        · exact h'
      obtain ⟨tr, htr⟩ := ih hm
        (fun t ht hq => huniq t (List.mem_cons_of_mem _ ht) hq)
      refine ⟨(u, p) :: tr, ?_⟩
      rw [completionLoop, if_neg (by simp [hst]),
        try_credentials_of_fault attempt st u p h, htr]

theorem completionLoop_none_state (attempt : String → String → AttemptOutcome)
    (st : SearchState) (tasks : List Cred) :
    ∀ st' tr, completionLoop attempt st tasks = (none, st', tr) → st' = st := by
  induction tasks with
  | nil =>
    intro st' tr h
    rw [completionLoop] at h
    simp only [Prod.mk.injEq] at h
    exact h.2.1.symm
  | cons t ts ih =>
    obtain ⟨u, p⟩ := t
    intro st' tr h
    rw [completionLoop] at h
    by_cases hf : st.found = true
    · rw [if_pos hf] at h
      simp only [Prod.mk.injEq] at h
      exact h.2.1.symm
    · rw [if_neg hf] at h
      cases htry : try_credentials attempt st u p with
      | some c =>
        rw [htry] at h
        simp at h
      | none =>
        rw [htry] at h
        rcases hrec : completionLoop attempt st ts with ⟨r, st2, tr2⟩
        rw [hrec] at h
        simp only [Prod.mk.injEq] at h
        obtain ⟨h1, h2, _⟩ := h
        subst h1
        exact h2 ▸ ih st2 tr2 hrec

theorem completionLoop_first_success (attempt : String → String → AttemptOutcome)
    (st : SearchState) (tasks : List Cred) (hst : st.found = false) :
    ∀ c st' tr, completionLoop attempt st tasks = (some c, st', tr) →
      st' = ⟨true, some c⟩ ∧ attempt c.1 c.2 = .ok ∧
        ∃ pre, tr = pre ++ [c] ∧ ∀ t ∈ pre, attempt t.1 t.2 ≠ .ok := by
  induction tasks with
  | nil =>
    intro c st' tr h
    rw [completionLoop] at h
    simp at h
  | cons t ts ih =>
    obtain ⟨u, p⟩ := t
    intro c st' tr h
    rw [completionLoop, if_neg (by simp [hst])] at h
    cases htry : try_credentials attempt st u p with
    | some c2 =>
      rw [htry] at h
      obtain ⟨-, hok, hc2⟩ := try_credentials_some htry
      simp only [Prod.mk.injEq] at h
      obtain ⟨h1, h2, h3⟩ := h
      injection h1 with h1
      subst h1
      subst hc2
      exact ⟨h2.symm, hok, [], h3.symm, by simp⟩
    | none =>
      rw [htry] at h
      rcases hrec : completionLoop attempt st ts with ⟨r, st2, tr2⟩
      rw [hrec] at h
      simp only [Prod.mk.injEq] at h
      obtain ⟨h1, h2, h3⟩ := h
      subst h1
      obtain ⟨hs, hok, pre, hpre, hfailpre⟩ := ih c st2 tr2 hrec
      have hfaulthead : attempt u p ≠ .ok := by
        intro hokhead
        have := try_credentials_of_found attempt st.result u p
        rw [try_credentials, if_neg (by simp [hst]), hokhead] at htry
        cases htry
      refine ⟨h2 ▸ hs, hok, (u, p) :: pre, ?_, ?_⟩
      · rw [← h3, hpre]
        rfl
      · intro t ht
        rcases List.mem_cons.mp ht with h' | h'
        · subst h'
          exact hfaulthead
        · exact hfailpre t h'

theorem completionLoop_tried_subset (attempt : String → String → AttemptOutcome)
    (st : SearchState) (tasks : List Cred) :
    (completionLoop attempt st tasks).2.2 ⊆ tasks := by
  induction tasks with
  | nil =>
    intro t ht
    exact absurd ht (by simp [completionLoop])
  | cons t0 ts ih =>
    obtain ⟨u, p⟩ := t0
    rw [completionLoop]
    by_cases hf : st.found = true
    · rw [if_pos hf]
      intro t ht
      exact absurd ht (by simp)
    · rw [if_neg hf]
      cases htry : try_credentials attempt st u p with
      | some c =>
        intro t ht
        simp only [List.mem_singleton] at ht
        simp [ht]
      | none =>
        rcases hrec : completionLoop attempt st ts with ⟨r, st2, tr2⟩
        have ih' := ih
        rw [hrec] at ih'
        intro t ht
        simp only [List.mem_cons] at ht
        rcases ht with h' | h'
        · simp [h']
        · exact List.mem_cons_of_mem _ (ih' h')

/-! ### Behaviour of the batch loop -/

theorem hybridLoop_all_fail (attempt : String → String → AttemptOutcome)
    (sched : List Cred → List Cred) (mw : Int) (st : SearchState)
    (batches : List (List Cred)) (hst : st.found = false) (hmw : ¬ mw ≤ 0)
    (hsched : ∀ l : List Cred, (sched l).Perm l)
    (hfail : ∀ t ∈ batches.flatten, attempt t.1 t.2 ≠ .ok) :
    hybridLoop attempt sched mw st batches
      = .ok ⟨none, st, (batches.map sched).flatten, batches.length⟩ := by
  induction batches with
  | nil => rfl
  | cons b rest ih =>
    have hb : ∀ t ∈ sched b, attempt t.1 t.2 ≠ .ok := fun t ht =>
      hfail t (List.mem_flatten_of_mem (List.mem_cons_self _ _)
        ((hsched b).mem_iff.mp ht))
    have hrest : ∀ t ∈ rest.flatten, attempt t.1 t.2 ≠ .ok := fun t ht =>
      hfail t (by rw [List.flatten_cons]; exact List.mem_append_right _ ht)
    rw [hybridLoop, if_neg (by simp [hst]), if_neg hmw,
      completionLoop_all_fail attempt st (sched b) hst hb]
    show (match hybridLoop attempt sched mw st rest with
      | Except.ok out =>
        Except.ok (⟨out.res, out.state, sched b ++ out.tried, out.pools + 1⟩ : RunResult)
      | Except.error (e, tr') => Except.error (e, sched b ++ tr'))
      = Except.ok ⟨none, st, ((b :: rest).map sched).flatten, (b :: rest).length⟩
    rw [ih hrest]
    simp [List.flatten_cons]

theorem hybridLoop_finds (attempt : String → String → AttemptOutcome)
    (sched : List Cred → List Cred) (mw : Int) (st : SearchState)
    (batches : List (List Cred)) (c0 : Cred)
    (hst : st.found = false) (hmw : ¬ mw ≤ 0)
    (hsched : ∀ l : List Cred, (sched l).Perm l)
    (hmem : c0 ∈ batches.flatten) (hok : attempt c0.1 c0.2 = .ok)
    (huniq : ∀ t ∈ batches.flatten, attempt t.1 t.2 = .ok → t = c0) :
    searchResult (hybridLoop attempt sched mw st batches) = some c0 := by
  induction batches with
  | nil => cases hmem
  | cons b rest ih =>
    by_cases hcb : c0 ∈ b
    · have hmemb : c0 ∈ sched b := (hsched b).mem_iff.mpr hcb
      obtain ⟨tr, htr⟩ := completionLoop_finds attempt st (sched b) c0 hst
        hmemb hok
        (fun t ht hq => huniq t
          (List.mem_flatten_of_mem (List.mem_cons_self _ _)
            ((hsched b).mem_iff.mp ht)) hq)
      rw [hybridLoop, if_neg (by simp [hst]), if_neg hmw, htr]
      rfl
    · have hb : ∀ t ∈ sched b, attempt t.1 t.2 ≠ .ok := by
        intro t ht hq
        have htb : t ∈ b := (hsched b).mem_iff.mp ht
        have : t = c0 := huniq t
          (List.mem_flatten_of_mem (List.mem_cons_self _ _) htb) hq
        exact hcb (this ▸ htb)
      have hmem' : c0 ∈ rest.flatten := by
        rw [List.flatten_cons] at hmem
        rcases List.mem_append.mp hmem with h' | h'
        · exact absurd h' hcb
        · exact h'
      have huniq' : ∀ t ∈ rest.flatten, attempt t.1 t.2 = .ok → t = c0 :=
        fun t ht hq => huniq t
          (by rw [List.flatten_cons]; exact List.mem_append_right _ ht) hq
      have ihres := ih hmem' huniq'
      rw [hybridLoop, if_neg (by simp [hst]), if_neg hmw,
        completionLoop_all_fail attempt st (sched b) hst hb]
      show searchResult (match hybridLoop attempt sched mw st rest with
        | Except.ok out =>
          Except.ok (⟨out.res, out.state, sched b ++ out.tried, out.pools + 1⟩ : RunResult)
        | Except.error (e, tr') => Except.error (e, sched b ++ tr'))
        = some c0
      cases hrec : hybridLoop attempt sched mw st rest with
      | ok out =>
        rw [hrec] at ihres
        simpa [searchResult] using ihres
      | error e =>
        rw [hrec] at ihres
        simp [searchResult] at ihres

theorem hybridLoop_tried_subset (attempt : String → String → AttemptOutcome)
    (sched : List Cred → List Cred) (mw : Int)
    (batches : List (List Cred)) :
    ∀ st out, hybridLoop attempt sched mw st batches = Except.ok out →
      ∀ t ∈ out.tried, ∃ b ∈ batches, t ∈ sched b := by
  induction batches with
  | nil =>
    intro st out hout t ht
    rw [hybridLoop] at hout
    injection hout with hout
    rw [← hout] at ht
    cases ht
  | cons b rest ih =>
    intro st out hout t ht
    rw [hybridLoop] at hout
    by_cases hf : st.found = true
    · rw [if_pos hf] at hout
      injection hout with hout
      rw [← hout] at ht
      cases ht
    · rw [if_neg hf] at hout
      by_cases hmw : mw ≤ 0
      · rw [if_pos hmw] at hout
        cases hout
      · rw [if_neg hmw] at hout
        rcases hcl : completionLoop attempt st (sched b) with ⟨r, st2, tr2⟩
        rw [hcl] at hout
        have htr2 : tr2 ⊆ sched b := by
          have hsub := completionLoop_tried_subset attempt st (sched b)
          rw [hcl] at hsub
          exact hsub
        cases r with
        | some c =>
          injection hout with hout
          rw [← hout] at ht
          exact ⟨b, List.mem_cons_self _ _, htr2 ht⟩
        | none =>
          have hout' : (match hybridLoop attempt sched mw st2 rest with
              | Except.ok out2 =>
                Except.ok (⟨out2.res, out2.state, tr2 ++ out2.tried,
                  out2.pools + 1⟩ : RunResult)
              | Except.error (e, tr') => Except.error (e, tr2 ++ tr'))
              = Except.ok out := hout
          cases hrec : hybridLoop attempt sched mw st2 rest with
          | ok out2 =>
            rw [hrec] at hout'
            injection hout' with hout'
            rw [← hout'] at ht
            rcases List.mem_append.mp ht with h' | h'
            · exact ⟨b, List.mem_cons_self _ _, htr2 h'⟩
            · obtain ⟨b2, hb2, htb2⟩ := ih st2 out2 hrec t h'
              exact ⟨b2, List.mem_cons_of_mem _ hb2, htb2⟩
          | error e =>
            rw [hrec] at hout'
            obtain ⟨e1, e2⟩ := e
            cases hout'

/-! ### Indexing into the cross product -/

theorem getElem?_listProduct (us ps : List String) (k : Nat)
    (hk : k < us.length * ps.length) :
    (listProduct us ps)[k]?
      = some (us.getD (k / ps.length) "", ps.getD (k % ps.length) "") := by
  induction us generalizing k with
  | nil => simp at hk
  | cons u us ih =>
    rw [show listProduct (u :: us) ps
          = ps.map (fun p => (u, p)) ++ listProduct us ps from rfl]
    by_cases hlt : k < ps.length
    · rw [List.getElem?_append_left (by simpa using hlt),
        List.getElem?_map, Nat.div_eq_of_lt hlt, Nat.mod_eq_of_lt hlt]
      have hpk : ps[k]? = some (ps.getD k "") := by
        rw [List.getD_eq_getElem?_getD, List.getElem?_eq_getElem hlt]
        rfl
      rw [hpk]
      rfl
    · push_neg at hlt
      have hp : 0 < ps.length := by
        rcases Nat.eq_zero_or_pos ps.length with h0 | hp
        · rw [h0, Nat.mul_zero] at hk
          cases hk
        · exact hp
      rw [List.getElem?_append_right (by simpa using hlt)]
      simp only [List.length_map]
      have hk' : k - ps.length < us.length * ps.length := by
        rw [List.length_cons, Nat.succ_mul] at hk
        omega
      rw [ih (k - ps.length) hk']
      obtain ⟨j, hj⟩ := Nat.exists_eq_add_of_le hlt
      subst hj
      rw [Nat.add_sub_cancel_left, Nat.add_comm ps.length j,
        Nat.add_div_right j hp, Nat.add_mod_right j ps.length]
      simp

theorem take_replicate_of_le {α : Type} (m n : Nat) (x : α) (h : m ≤ n) :
    (List.replicate n x).take m = List.replicate m x := by
  induction m generalizing n with
  | zero => simp
  | succ m ih =>
    cases n with
    | zero => omega
    | succ n =>
      rw [List.replicate_succ, List.replicate_succ, List.take_succ_cons,
        ih n (by omega)]

/-! ### A combination space larger than the hybrid generator's cap

`usZ` has 1001 usernames and `psZ` has 1001 passwords, so the full space
holds 1002001 pairs; only the pair `("z", "b")` authenticates, and in
username-major order every one of the first 1000000 pairs is
`("a", "b")`. -/

def usZ : List String := List.replicate 1000 "a" ++ ["z"]

def psZ : List String := List.replicate 1001 "b"

def attemptZ : String → String → AttemptOutcome :=
  fun u p => if u = "z" ∧ p = "b" then .ok else .authRejected

theorem listProduct_usZ_psZ :
    listProduct usZ psZ
      = List.replicate 1001000 ("a", "b") ++ List.replicate 1001 ("z", "b") := by
  rw [usZ, psZ, listProduct_append, listProduct_replicate,
    show listProduct ["z"] (List.replicate 1001 "b")
        = List.replicate 1001 ("z", "b") by
      rw [show listProduct ["z"] (List.replicate 1001 "b")
          = (List.replicate 1001 "b").map (fun p => ("z", p))
              ++ listProduct [] (List.replicate 1001 "b") from rfl,
        show listProduct [] (List.replicate 1001 "b") = [] from rfl,
        List.map_replicate, List.append_nil]]

theorem generate_usZ_psZ :
    generate_combinations_cpu usZ psZ 1000000
      = List.replicate 1000000 ("a", "b") := by
  rw [generate_eq_take _ _ _ (by norm_num), listProduct_usZ_psZ,
    List.take_append_of_le_length (by rw [List.length_replicate]; norm_num),
    take_replicate_of_le _ _ _ (by norm_num)]

/-- A batched search over the GPU-unavailable path returns `none` whenever
every pair of its (capped) combination list fails, whatever the batch
size, the worker count, and the completion orders. -/
theorem hybrid_none_of_all_fail (attempt : String → String → AttemptOutcome)
    (us ps : List String) (bs : Nat) (mw : Int)
    (sched : List Cred → List Cred)
    (hsched : ∀ l : List Cred, (sched l).Perm l)
    (hfail : ∀ t ∈ generate_combinations_cpu us ps 1000000,
      attempt t.1 t.2 ≠ .ok) :
    searchResult (brute_force_hybrid attempt SearchState.init us ps bs mw sched)
      = none := by
  unfold brute_force_hybrid
  by_cases hbs : bs = 0
  · rw [if_pos hbs]
    rfl
  · rw [if_neg hbs]
    by_cases hmw : mw ≤ 0
    · cases hb : sliceBatches bs (generate_combinations_cpu us ps 1000000) with
      | nil => rfl
      | cons b rest =>
        rw [hybridLoop, if_neg (by simp [SearchState.init]), if_pos hmw]
        rfl
    · have hfl : ∀ t ∈ (sliceBatches bs
          (generate_combinations_cpu us ps 1000000)).flatten,
          attempt t.1 t.2 ≠ .ok := by
        rw [flatten_sliceBatches _ _ (Nat.one_le_iff_ne_zero.mpr hbs)]
        exact hfail
      rw [hybridLoop_all_fail attempt sched mw SearchState.init _ rfl hmw
        hsched hfl]
      rfl

/-! ## Claims -/

/-- C2, counterexample: with the cap set to 0 and the non-empty inputs
`["a"]`, `["b"]`, the builder still produces one pair, because the source
appends before checking the cap, so the output length is not
`min (1 * 1) 0 = 0` as the claim requires. -/
theorem c2_counterexample :
    ¬ ((generate_combinations_cpu ["a"] ["b"] 0).length
        = min ((["a"] : List String).length * (["b"] : List String).length) 0) := by
  decide

/-- C2, amended to positive caps: for non-empty username and password
sequences and any cap `m ≥ 1`, the builder produces exactly
`min (|usernames| * |passwords|) m` pairs, every produced pair draws its
username from `usernames` and its password from `passwords`, and no pair
occurs more often than in the cross product of the inputs. -/
theorem c2_generate_combinations (us ps : List String) (m : Nat)
    (hus : us ≠ []) (hps : ps ≠ []) (hm : 1 ≤ m) :
    (generate_combinations_cpu us ps m).length = min (us.length * ps.length) m
    ∧ (∀ c ∈ generate_combinations_cpu us ps m, c.1 ∈ us ∧ c.2 ∈ ps)
    ∧ ∀ c : Cred, (generate_combinations_cpu us ps m).count c
        ≤ (listProduct us ps).count c := by
  rw [generate_eq_take us ps m hm]
  refine ⟨?_, ?_, ?_⟩
  · rw [List.length_take, length_listProduct, Nat.min_comm]
  · intro c hc
    exact mem_listProduct.mp (List.take_subset m _ hc)
  · intro c
    exact (List.take_sublist m _).count_le c

/-- C2, witness at `["u1", "u2"]`, `["p1"]`, cap 5. -/
theorem c2_witness :
    (["u1", "u2"] : List String) ≠ [] ∧ (["p1"] : List String) ≠ []
    ∧ 1 ≤ 5
    ∧ ((generate_combinations_cpu ["u1", "u2"] ["p1"] 5).length
        = min ((["u1", "u2"] : List String).length
            * (["p1"] : List String).length) 5
      ∧ (∀ c ∈ generate_combinations_cpu ["u1", "u2"] ["p1"] 5,
          c.1 ∈ (["u1", "u2"] : List String)
            ∧ c.2 ∈ (["p1"] : List String))
      ∧ ∀ c : Cred, (generate_combinations_cpu ["u1", "u2"] ["p1"] 5).count c
          ≤ (listProduct ["u1", "u2"] ["p1"]).count c) :=
  ⟨by decide, by decide, by decide,
    c2_generate_combinations ["u1", "u2"] ["p1"] 5 (by decide) (by decide)
      (by decide)⟩

/-- C9: the CPU combination builder enumerates in username-major order:
for every index `k` below `min (|usernames| * |passwords|) m`, the `k`-th
produced pair is `(usernames[k / |passwords|], passwords[k mod |passwords|])`.
(The builder is a pure function, so determinism across runs is inherent.) -/
theorem c9_indexing (us ps : List String) (m k : Nat)
    (hk : k < min (us.length * ps.length) m) :
    (generate_combinations_cpu us ps m)[k]?
      = some (us.getD (k / ps.length) "", ps.getD (k % ps.length) "") := by
  have hk1 : k < us.length * ps.length :=
    Nat.lt_of_lt_of_le hk (Nat.min_le_left _ _)
  have hk2 : k < m := Nat.lt_of_lt_of_le hk (Nat.min_le_right _ _)
  rw [generate_eq_take us ps m (by omega), List.getElem?_take_of_lt hk2]
  exact getElem?_listProduct us ps k hk1

/-- C9, witness: the 4th pair of a 2 x 3 space is the claimed one. -/
theorem c9_witness :
    4 < min ((["u0", "u1"] : List String).length
        * (["p0", "p1", "p2"] : List String).length) 100
    ∧ (generate_combinations_cpu ["u0", "u1"] ["p0", "p1", "p2"] 100)[4]?
      = some ((["u0", "u1"] : List String).getD
            (4 / (["p0", "p1", "p2"] : List String).length) "",
          (["p0", "p1", "p2"] : List String).getD
            (4 % (["p0", "p1", "p2"] : List String).length) "") :=
  ⟨by decide, c9_indexing ["u0", "u1"] ["p0", "p1", "p2"] 100 4 (by decide)⟩

/-- C10: on the GPU-unavailable path, the batched search's combination list
is `generate_combinations_cpu` with the default cap, i.e. exactly the first
1000000 pairs of the cross product; it never holds more than 1000000
pairs, and every pair the batched search ever hands to `try_credentials`
lies in that 1000000-pair prefix, so pairs beyond it are never attempted. -/
theorem c10_hybrid_cap (us ps : List String) (bs : Nat) (mw : Int)
    (attempt : String → String → AttemptOutcome) (st : SearchState)
    (sched : List Cred → List Cred)
    (hsched : ∀ l : List Cred, (sched l).Perm l) :
    generate_combinations_cpu us ps 1000000 = (listProduct us ps).take 1000000
    ∧ (generate_combinations_cpu us ps 1000000).length ≤ 1000000
    ∧ (∀ out, brute_force_hybrid attempt st us ps bs mw sched = Except.ok out →
        ∀ t ∈ out.tried, t ∈ (listProduct us ps).take 1000000) := by
  have hgen := generate_eq_take us ps 1000000 (by norm_num)
  refine ⟨hgen, ?_, ?_⟩
  · rw [hgen, List.length_take]
    exact Nat.min_le_left _ _
  · intro out hout t ht
    unfold brute_force_hybrid at hout
    by_cases hbs : bs = 0
    · rw [if_pos hbs] at hout
      cases hout
    · rw [if_neg hbs] at hout
      obtain ⟨b, hb, htb⟩ :=
        hybridLoop_tried_subset attempt sched mw _ st out hout t ht
      have hbmem : t ∈ b := (hsched b).mem_iff.mp htb
      have hmemgen : t ∈ generate_combinations_cpu us ps 1000000 := by
        rw [← flatten_sliceBatches bs (generate_combinations_cpu us ps 1000000)
          (Nat.one_le_iff_ne_zero.mpr hbs)]
        exact List.mem_flatten_of_mem hb hbmem
      rw [← hgen]
      exact hmemgen

/-- C10, witness on a 1-pair space with a failing double. -/
theorem c10_witness :
    generate_combinations_cpu ["a"] ["b"] 1000000
      = (listProduct ["a"] ["b"]).take 1000000
    ∧ (generate_combinations_cpu ["a"] ["b"] 1000000).length ≤ 1000000
    ∧ (∀ out, brute_force_hybrid (fun _ _ => AttemptOutcome.authRejected)
          SearchState.init ["a"] ["b"] 1 1 (fun l => l) = Except.ok out →
        ∀ t ∈ out.tried, t ∈ (listProduct ["a"] ["b"]).take 1000000) :=
  c10_hybrid_cap ["a"] ["b"] 1 1 (fun _ _ => AttemptOutcome.authRejected)
    SearchState.init (fun l => l) (fun l => List.Perm.refl l)

set_option maxRecDepth 8000 in
/-- C3, counterexample: over the 1001 x 1001 space `usZ` x `psZ` the
batched search slices the capped generator output (1000000 pairs), so the
multiset of pairs across its batches misses 2001 pairs of the flat
search's full cross product. -/
theorem c3_counterexample :
    ¬ ((((sliceBatches 1000
          (generate_combinations_cpu usZ psZ 1000000)).flatten : List Cred)
            : Multiset Cred)
        = ((listProduct usZ psZ : List Cred) : Multiset Cred)) := by
  intro h
  have hL : ((sliceBatches 1000
      (generate_combinations_cpu usZ psZ 1000000)).flatten).length
      = 1000000 := by
    rw [flatten_sliceBatches 1000 (generate_combinations_cpu usZ psZ 1000000)
      (by norm_num), generate_usZ_psZ, List.length_replicate]
  have hR : (listProduct usZ psZ).length = 1002001 := by
    rw [length_listProduct, show usZ.length = 1001 by decide,
      show psZ.length = 1001 by decide]
  have hcard := congrArg Multiset.card h
  rw [Multiset.coe_card, Multiset.coe_card, hL, hR] at hcard
  norm_num at hcard

/-- C3, amended to spaces within the generator's default cap: whenever
`|usernames| * |passwords| ≤ 1000000`, the pairs enumerated across all
batches of the batched search (the `batchSize` slices of its generated
combination list, `batchSize ≥ 1`) form exactly the multiset the flat
search enumerates via the full cross product: nothing missing, nothing
duplicated. -/
theorem c3_batches_cover (us ps : List String) (bs : Nat) (hbs : 1 ≤ bs)
    (htot : us.length * ps.length ≤ 1000000) :
    (((sliceBatches bs
        (generate_combinations_cpu us ps 1000000)).flatten : List Cred)
          : Multiset Cred)
      = ((listProduct us ps : List Cred) : Multiset Cred) := by
  rw [flatten_sliceBatches _ _ hbs, generate_eq_take _ _ _ (by norm_num),
    List.take_of_length_le (by rw [length_listProduct]; exact htot)]

/-- C3, witness at a 1 x 2 space with batch size 1. -/
theorem c3_witness :
    1 ≤ 1 ∧ (["a"] : List String).length * (["b", "c"] : List String).length ≤ 1000000
    ∧ (((sliceBatches 1
        (generate_combinations_cpu ["a"] ["b", "c"] 1000000)).flatten : List Cred)
          : Multiset Cred)
      = ((listProduct ["a"] ["b", "c"] : List Cred) : Multiset Cred) :=
  ⟨by decide, by norm_num, c3_batches_cover ["a"] ["b", "c"] 1 (by decide)
    (by norm_num)⟩

/-- C1, amended to spaces within the hybrid generator's default cap: if
exactly one pair in the combination space succeeds and the space holds at
most 1000000 pairs, then for every worker count from 1 to the combination
count (and any batch size at least 1 and any completion orders), both the
flat and the batched search return that pair. -/
theorem c1_unique_success (attempt : String → String → AttemptOutcome)
    (us ps : List String) (c0 : Cred) (mw : Int) (bs : Nat)
    (sched : List Cred → List Cred)
    (hmem : c0 ∈ listProduct us ps)
    (hok : attempt c0.1 c0.2 = AttemptOutcome.ok)
    (huniq : ∀ c ∈ listProduct us ps,
      attempt c.1 c.2 = AttemptOutcome.ok → c = c0)
    (hmw1 : 1 ≤ mw) (hmw2 : mw ≤ (us.length * ps.length : Int))
    (hbs : 1 ≤ bs)
    (htot : us.length * ps.length ≤ 1000000)
    (hsched : ∀ l : List Cred, (sched l).Perm l) :
    searchResult (brute_force_cpu attempt SearchState.init us ps mw sched)
      = some c0
    ∧ searchResult
        (brute_force_hybrid attempt SearchState.init us ps bs mw sched)
      = some c0 := by
  have hmw' : ¬ mw ≤ 0 := by omega
  have hgenfull : generate_combinations_cpu us ps 1000000 = listProduct us ps := by
    rw [generate_eq_take _ _ _ (by norm_num)]
    exact List.take_of_length_le (by rw [length_listProduct]; exact htot)
  constructor
  · unfold brute_force_cpu
    rw [if_neg hmw']
    obtain ⟨tr, htr⟩ := completionLoop_finds attempt SearchState.init
      (sched (listProduct us ps)) c0 rfl
      ((hsched (listProduct us ps)).mem_iff.mpr hmem) hok
      (fun t ht hq => huniq t ((hsched (listProduct us ps)).mem_iff.mp ht) hq)
    rw [htr]
    rfl
  · unfold brute_force_hybrid
    rw [if_neg (by omega : ¬ bs = 0)]
    have hflat : (sliceBatches bs
        (generate_combinations_cpu us ps 1000000)).flatten
        = listProduct us ps := by
      rw [flatten_sliceBatches _ _ hbs, hgenfull]
    exact hybridLoop_finds attempt sched mw SearchState.init _ c0 rfl hmw'
      hsched (hflat ▸ hmem) hok (fun t ht hq => huniq t (hflat ▸ ht) hq)

/-- C1, witness on a 2 x 2 space whose only valid pair is
`("u2", "p1")`, with one worker and batch size 1. -/
theorem c1_witness :
    searchResult (brute_force_cpu
        (fun u p => if u = "u2" ∧ p = "p1" then AttemptOutcome.ok
          else AttemptOutcome.authRejected)
        SearchState.init ["u1", "u2"] ["p1", "p2"] 1 (fun l => l))
      = some ("u2", "p1")
    ∧ searchResult (brute_force_hybrid
        (fun u p => if u = "u2" ∧ p = "p1" then AttemptOutcome.ok
          else AttemptOutcome.authRejected)
        SearchState.init ["u1", "u2"] ["p1", "p2"] 1 1 (fun l => l))
      = some ("u2", "p1") :=
  c1_unique_success
    (fun u p => if u = "u2" ∧ p = "p1" then AttemptOutcome.ok
      else AttemptOutcome.authRejected)
    ["u1", "u2"] ["p1", "p2"] ("u2", "p1") 1 1 (fun l => l)
    (by decide) (by decide) (by decide) (by decide) (by decide) (by decide)
    (by norm_num) (fun l => List.Perm.refl l)

/-- C1, counterexample to the claim as stated: over the 1001 x 1001 space
`usZ` x `psZ` exactly one pair, `("z", "b")`, succeeds (it lies in the
space, it authenticates, and every other pair of the space fails), the
worker count 1 lies between 1 and the combination count, yet the batched
search returns `none`: the succeeding pair sits beyond the generator's
1000000-pair cap, so it is never attempted. -/
theorem c1_counterexample :
    (("z", "b") ∈ listProduct usZ psZ)
    ∧ attemptZ "z" "b" = AttemptOutcome.ok
    ∧ ((listProduct usZ psZ).all fun c =>
        !(decide (attemptZ c.1 c.2 = AttemptOutcome.ok))
          || decide (c = ("z", "b"))) = true
    ∧ searchResult (brute_force_hybrid attemptZ SearchState.init usZ psZ
        1000 1 (fun l => l)) = none := by
  refine ⟨?_, by decide, ?_, ?_⟩
  · rw [listProduct_usZ_psZ]
    exact List.mem_append_right _ (List.mem_replicate.mpr ⟨by norm_num, rfl⟩)
  · rw [List.all_eq_true]
    intro c hc
    rw [listProduct_usZ_psZ] at hc
    rcases List.mem_append.mp hc with h' | h'
    · rw [List.eq_of_mem_replicate h']
      decide
    · rw [List.eq_of_mem_replicate h']
      decide
  · apply hybrid_none_of_all_fail attemptZ usZ psZ 1000 1 (fun l => l)
      (fun l => List.Perm.refl l)
    intro t ht
    rw [generate_usZ_psZ] at ht
    rw [List.eq_of_mem_replicate ht]
    decide

/-- C4: when no pair of the combination space succeeds (fresh state,
`maxWorkers ≥ 1`, `batchSize ≥ 1`, any completion orders), the flat search
returns `none` having processed every one of the `|usernames| * |passwords|`
submitted attempts, and the batched search returns `none` having processed
every pair of its combination list, whose count is its total
`min (|usernames| * |passwords|) 1000000`. -/
theorem c4_exhaustion (attempt : String → String → AttemptOutcome)
    (us ps : List String) (mw : Int) (bs : Nat)
    (sched : List Cred → List Cred)
    (hfail : ∀ t ∈ listProduct us ps, attempt t.1 t.2 ≠ AttemptOutcome.ok)
    (hmw : 1 ≤ mw) (hbs : 1 ≤ bs)
    (hsched : ∀ l : List Cred, (sched l).Perm l) :
    brute_force_cpu attempt SearchState.init us ps mw sched
      = Except.ok ⟨none, SearchState.init, sched (listProduct us ps), 1⟩
    ∧ (sched (listProduct us ps)).length = us.length * ps.length
    ∧ ∃ out, brute_force_hybrid attempt SearchState.init us ps bs mw sched
          = Except.ok out
        ∧ out.res = none ∧ out.state = SearchState.init
        ∧ out.tried.length = min (us.length * ps.length) 1000000 := by
  have hmw' : ¬ mw ≤ 0 := by omega
  have hfail' : ∀ t ∈ sched (listProduct us ps),
      attempt t.1 t.2 ≠ AttemptOutcome.ok :=
    fun t ht => hfail t ((hsched (listProduct us ps)).mem_iff.mp ht)
  refine ⟨?_, ?_, ?_⟩
  · unfold brute_force_cpu
    rw [if_neg hmw',
      completionLoop_all_fail attempt SearchState.init _ rfl hfail']
  · rw [(hsched (listProduct us ps)).length_eq, length_listProduct]
  · unfold brute_force_hybrid
    rw [if_neg (by omega : ¬ bs = 0)]
    have hflat : ∀ t ∈ (sliceBatches bs
        (generate_combinations_cpu us ps 1000000)).flatten,
        attempt t.1 t.2 ≠ AttemptOutcome.ok := by
      rw [flatten_sliceBatches _ _ hbs]
      intro t ht
      refine hfail t ?_
      rw [generate_eq_take _ _ _ (by norm_num)] at ht
      exact List.take_subset _ _ ht
    rw [hybridLoop_all_fail attempt sched mw SearchState.init _ rfl hmw'
      hsched hflat]
    refine ⟨_, rfl, rfl, rfl, ?_⟩
    have hlen : ∀ bl : List (List Cred),
        ((bl.map sched).flatten).length = bl.flatten.length := by
      intro bl
      induction bl with
      | nil => rfl
      | cons b r ih =>
        rw [List.map_cons, List.flatten_cons, List.flatten_cons,
          List.length_append, List.length_append, ih,
          (hsched b).length_eq]
    show ((List.map sched (sliceBatches bs
      (generate_combinations_cpu us ps 1000000))).flatten).length
        = min (us.length * ps.length) 1000000
    rw [hlen, flatten_sliceBatches _ _ hbs,
      generate_eq_take _ _ _ (by norm_num), List.length_take,
      length_listProduct, Nat.min_comm]

/-- C4, witness on a 1 x 2 space with an always-failing double. -/
theorem c4_witness :
    brute_force_cpu (fun _ _ => AttemptOutcome.authRejected)
        SearchState.init ["a"] ["b", "c"] 1 (fun l => l)
      = Except.ok ⟨none, SearchState.init, listProduct ["a"] ["b", "c"], 1⟩
    ∧ ((fun l : List Cred => l) (listProduct ["a"] ["b", "c"])).length
        = (["a"] : List String).length * (["b", "c"] : List String).length
    ∧ ∃ out, brute_force_hybrid (fun _ _ => AttemptOutcome.authRejected)
          SearchState.init ["a"] ["b", "c"] 1 1 (fun l => l)
          = Except.ok out
        ∧ out.res = none ∧ out.state = SearchState.init
        ∧ out.tried.length
            = min ((["a"] : List String).length
                * (["b", "c"] : List String).length) 1000000 :=
  c4_exhaustion (fun _ _ => AttemptOutcome.authRejected) ["a"] ["b", "c"]
    1 1 (fun l => l) (by decide) (by decide) (by decide)
    (fun l => List.Perm.refl l)

/-- C5: the found/result invariant of a search.  A successful double can
never produce a result once `found` is set (so a later success cannot
overwrite the recorded one); a loop started in a found state processes
nothing and leaves the state untouched; a loop that ends without success
leaves the state exactly as it was; and when a loop started fresh returns
a credential, the final state records precisely that credential with
`found = true` (non-empty result), the credential's attempt succeeded, and
it is the first success in completion order: every task processed before
it failed. -/
theorem c5_invariant (attempt : String → String → AttemptOutcome)
    (st : SearchState) (tasks : List Cred) :
    (∀ u p r, try_credentials attempt ⟨true, r⟩ u p = none)
    ∧ (st.found = true → completionLoop attempt st tasks = (none, st, []))
    ∧ (∀ st' tr, completionLoop attempt st tasks = (none, st', tr) → st' = st)
    ∧ (st.found = false → ∀ c st' tr,
        completionLoop attempt st tasks = (some c, st', tr) →
        st' = ⟨true, some c⟩ ∧ attempt c.1 c.2 = AttemptOutcome.ok ∧
        ∃ pre, tr = pre ++ [c] ∧ ∀ t ∈ pre, attempt t.1 t.2 ≠ AttemptOutcome.ok) :=
  ⟨fun u p r => try_credentials_of_found attempt r u p,
   fun h => completionLoop_found attempt st tasks h,
   completionLoop_none_state attempt st tasks,
   fun h => completionLoop_first_success attempt st tasks h⟩

/-- C5, witness: a loop started with `found` already true processes
nothing, and a fresh loop that finds `("z", "y")` records exactly it,
after the failing task before it. -/
theorem c5_witness :
    completionLoop (fun u _ => if u = "z" then AttemptOutcome.ok
        else AttemptOutcome.authRejected) ⟨true, none⟩ [("a", "x")]
      = (none, (⟨true, none⟩ : SearchState), [])
    ∧ ((⟨true, some ("z", "y")⟩ : SearchState) = ⟨true, some ("z", "y")⟩
      ∧ (fun u _ => if u = "z" then AttemptOutcome.ok
          else AttemptOutcome.authRejected) "z" "y" = AttemptOutcome.ok
      ∧ ∃ pre, ([("a", "x"), ("z", "y")] : List Cred) = pre ++ [("z", "y")]
          ∧ ∀ t ∈ pre, (fun u _ => if u = "z" then AttemptOutcome.ok
              else AttemptOutcome.authRejected) t.1 t.2
            ≠ AttemptOutcome.ok) :=
  ⟨(c5_invariant (fun u _ => if u = "z" then AttemptOutcome.ok
      else AttemptOutcome.authRejected) ⟨true, none⟩ [("a", "x")]).2.1 rfl,
   (c5_invariant (fun u _ => if u = "z" then AttemptOutcome.ok
      else AttemptOutcome.authRejected) SearchState.init
      [("a", "x"), ("z", "y")]).2.2.2 rfl ("z", "y")
      ⟨true, some ("z", "y")⟩ [("a", "x"), ("z", "y")] (by decide)⟩

/-- C6, counterexample to the claim as stated: with an empty username
list, the batched search called with `maxWorkers = 0` does not raise any
configuration error, it returns `none`: its pool construction sits inside
the batch loop, which never runs on an empty combination list. -/
theorem c6_counterexample :
    brute_force_hybrid (fun _ _ => AttemptOutcome.authRejected)
      SearchState.init [] ["p"] 1000 0 (fun l => l)
      = Except.ok ⟨none, SearchState.init, [], 0⟩ := rfl

/-- C6, amended: with `maxWorkers ≤ 0` the flat search always raises the
worker-count `ValueError` before processing any attempt (the error carries
an empty processed-task list), and the batched search does so exactly when
its combination list is non-empty (with `batchSize ≥ 1`); on an empty list
it returns `none` without raising. -/
theorem c6_invalid_workers (attempt : String → String → AttemptOutcome)
    (us ps : List String) (mw : Int) (bs : Nat)
    (sched : List Cred → List Cred) (hmw : mw ≤ 0) :
    brute_force_cpu attempt SearchState.init us ps mw sched
      = Except.error (PyError.valueErrorWorkers, [])
    ∧ (1 ≤ bs → generate_combinations_cpu us ps 1000000 ≠ [] →
        brute_force_hybrid attempt SearchState.init us ps bs mw sched
          = Except.error (PyError.valueErrorWorkers, [])) := by
  constructor
  · unfold brute_force_cpu
    rw [if_pos hmw]
  · intro hbs hne
    unfold brute_force_hybrid
    rw [if_neg (by omega : ¬ bs = 0), sliceBatches_ne_nil_shape bs _ hne,
      hybridLoop, if_neg (by simp [SearchState.init]), if_pos hmw]

/-- C6, witness at a 1 x 1 space with `maxWorkers = 0`. -/
theorem c6_witness :
    brute_force_cpu (fun _ _ => AttemptOutcome.authRejected)
        SearchState.init ["u"] ["p"] 0 (fun l => l)
      = Except.error (PyError.valueErrorWorkers, [])
    ∧ brute_force_hybrid (fun _ _ => AttemptOutcome.authRejected)
        SearchState.init ["u"] ["p"] 1000 0 (fun l => l)
      = Except.error (PyError.valueErrorWorkers, []) :=
  ⟨(c6_invalid_workers (fun _ _ => AttemptOutcome.authRejected) ["u"] ["p"]
      0 1000 (fun l => l) (by decide)).1,
   (c6_invalid_workers (fun _ _ => AttemptOutcome.authRejected) ["u"] ["p"]
      0 1000 (fun l => l) (by decide)).2 (by decide) (by decide)⟩

/-- C7, counterexample to the claim as stated: on an empty username list
the flat search does construct its worker pool (the source builds the
`ThreadPoolExecutor` before looking at the combination list), so "no
worker pool is created" fails for flat mode. -/
theorem c7_counterexample :
    poolCount (brute_force_cpu (fun _ _ => AttemptOutcome.authRejected)
        SearchState.init [] ["p"] 1 (fun l => l)) = some 1
    ∧ poolCount (brute_force_cpu (fun _ _ => AttemptOutcome.authRejected)
        SearchState.init [] ["p"] 1 (fun l => l)) ≠ some 0 := by
  decide

/-- C7, amended: on an empty combination space (valid `maxWorkers ≥ 1`,
`batchSize ≥ 1`) both searches return `none` immediately with zero
credential attempts processed; the batched search creates no worker pool,
while the flat search still constructs one (empty) pool. -/
theorem c7_empty_space (attempt : String → String → AttemptOutcome)
    (us ps : List String) (mw : Int) (bs : Nat)
    (sched : List Cred → List Cred)
    (hempty : listProduct us ps = [])
    (hmw : ¬ mw ≤ 0) (hbs : 1 ≤ bs)
    (hsched : ∀ l : List Cred, (sched l).Perm l) :
    brute_force_cpu attempt SearchState.init us ps mw sched
      = Except.ok ⟨none, SearchState.init, [], 1⟩
    ∧ brute_force_hybrid attempt SearchState.init us ps bs mw sched
      = Except.ok ⟨none, SearchState.init, [], 0⟩ := by
  have hschednil : sched (listProduct us ps) = [] := by
    rw [hempty]
    exact (hsched []).eq_nil
  constructor
  · unfold brute_force_cpu
    rw [if_neg hmw, hschednil]
    rfl
  · unfold brute_force_hybrid
    have hgen : generate_combinations_cpu us ps 1000000 = [] := by
      rw [generate_eq_take _ _ _ (by norm_num), hempty]
      rfl
    rw [if_neg (by omega : ¬ bs = 0), hgen]
    rfl

/-- C7, witness: empty username list, one worker, default-like batch
size. -/
theorem c7_witness :
    brute_force_cpu (fun _ _ => AttemptOutcome.authRejected)
        SearchState.init [] ["p"] 1 (fun l => l)
      = Except.ok ⟨none, SearchState.init, [], 1⟩
    ∧ brute_force_hybrid (fun _ _ => AttemptOutcome.authRejected)
        SearchState.init [] ["p"] 1000 1 (fun l => l)
      = Except.ok ⟨none, SearchState.init, [], 0⟩ :=
  c7_empty_space (fun _ _ => AttemptOutcome.authRejected) [] ["p"] 1 1000
    (fun l => l) rfl (by decide) (by decide) (fun l => List.Perm.refl l)

/-- C8: a single credential attempt never propagates a fault to the
coordinator: whatever non-success outcome the login produces (rejection,
timeout, connection error, or an unexpected programming error — all
swallowed by the bare `except:`), `try_credentials` returns `none`, and
the result-processing loop carries on with the remaining tasks, its
returned value and final state unchanged, only recording the failed task
as processed. -/
theorem c8_fault_isolated (attempt : String → String → AttemptOutcome)
    (st : SearchState) (u p : String) (ts : List Cred)
    (hfault : attempt u p ≠ AttemptOutcome.ok) :
    try_credentials attempt st u p = none
    ∧ (st.found = false →
        completionLoop attempt st ((u, p) :: ts)
          = ((completionLoop attempt st ts).1,
             (completionLoop attempt st ts).2.1,
             (u, p) :: (completionLoop attempt st ts).2.2)) := by
  refine ⟨try_credentials_of_fault attempt st u p hfault, fun hst => ?_⟩
  rw [completionLoop, if_neg (by simp [hst]),
    try_credentials_of_fault attempt st u p hfault]

/-- C8, witness: a timing-out attempt yields `none` and the loop
continues over the remaining task. -/
theorem c8_witness :
    try_credentials (fun _ _ => AttemptOutcome.timeout)
      SearchState.init "a" "b" = none
    ∧ (SearchState.init.found = false →
        completionLoop (fun _ _ => AttemptOutcome.timeout)
            SearchState.init [("a", "b"), ("c", "d")]
          = ((completionLoop (fun _ _ => AttemptOutcome.timeout)
                SearchState.init [("c", "d")]).1,
             (completionLoop (fun _ _ => AttemptOutcome.timeout)
                SearchState.init [("c", "d")]).2.1,
             ("a", "b") :: (completionLoop (fun _ _ => AttemptOutcome.timeout)
                SearchState.init [("c", "d")]).2.2)) :=
  c8_fault_isolated (fun _ _ => AttemptOutcome.timeout) SearchState.init
    "a" "b" [("c", "d")] (by decide)
